import Mathlib

/-!
Verification of the frequency-analysis and entry-generation core of
`pyLottoScraper` (`lottery_analyzer.py`), as a shallow embedding.

The database access of the Python code is abstracted: a lottery's stored
rows (the `numbers` column of `<type>_results`) are passed explicitly as a
`List String`.  The global random generator is modelled as a tape
`rng : Nat → Nat`: the draw consumed at time `t` is `rng t`, `random.choice`
reads one cell and `random.sample` reads one cell per selected element.
-/

namespace LottoScraper

/-- Python `str.split(',')` on the character list of a row: split at every
comma, never collapsing, so `""` gives `[""]` and `"5,"` gives
`["5", ""]`. -/
def split_commas : List Char → List (List Char)
  | [] => [[]]
  | c :: rest =>
    let r := split_commas rest
    if c = ',' then [] :: r
    else
      match r with
      | [] => [[c]]
      | cur :: rs => (c :: cur) :: rs

/-- Python `str.strip()`: drop whitespace from both ends of a token. -/
def strip (cs : List Char) : List Char :=
  ((cs.dropWhile Char.isWhitespace).reverse.dropWhile
    Char.isWhitespace).reverse

/-- Python `str.isdigit` on a token: non-empty and all digits. -/
def isdigit (cs : List Char) : Bool :=
  !cs.isEmpty && cs.all Char.isDigit

/-- Decimal value of a digit token, as Python `int` computes it on a token
that passed the `isdigit` guard. -/
def strToNat (cs : List Char) : Nat :=
  cs.foldl (fun acc c => acc * 10 + (c.toNat - 48)) 0

/-- The parse of one stored row, from `get_all_drawn_numbers`:
`[int(n) for n in numbers_str.split(',') if n.strip().isdigit()]`. -/
def parse_numbers (numbers_str : String) : List Int :=
  ((split_commas numbers_str.data).filter (fun n => isdigit (strip n))).map
    (fun n => (strToNat (strip n) : Int))

/-- `get_all_drawn_numbers`: keep the truthy (non-empty) rows and parse
each into a draw. -/
def get_all_drawn_numbers (rows : List String) : List (List Int) :=
  (rows.filter (fun s => !(s == ""))).map parse_numbers

/-- One `Counter` increment: bump the count of `n`, appending a fresh
`(n, 1)` binding at the end when `n` is a new key (Python dicts preserve
insertion order). -/
def counter_update_one (frequency : List (Int × Nat)) (n : Int) :
    List (Int × Nat) :=
  match frequency with
  | [] => [(n, 1)]
  | (k, c) :: rest =>
      if k = n then (k, c + 1) :: rest else (k, c) :: counter_update_one rest n

/-- `frequency.update(draw)`: fold one draw into the counter. -/
def counter_update (frequency : List (Int × Nat)) (draw : List Int) :
    List (Int × Nat) :=
  draw.foldl counter_update_one frequency

/-- The pure core of `calculate_frequency` (the spec's `compute_frequency`):
count every occurrence of every number across all draws. -/
def compute_frequency (all_draws : List (List Int)) : List (Int × Nat) :=
  all_draws.foldl counter_update []

/-- `calculate_frequency`: parse the stored rows, then count. -/
def calculate_frequency (rows : List String) : List (Int × Nat) :=
  compute_frequency (get_all_drawn_numbers rows)

/-- Sum of the counts of a frequency table. -/
def sumVals (l : List (Int × Nat)) : Nat :=
  (l.map Prod.snd).sum

/-- Total count recorded for the key `n` in a table (0 when absent;
summing over duplicate keys, which `compute_frequency` never produces). -/
def countVal (l : List (Int × Nat)) (n : Int) : Nat :=
  ((l.filter (fun p => p.1 == n)).map Prod.snd).sum

/-- Order used by `sorted(..., key=lambda x: x[1], reverse=True)`. -/
def descByCount (a b : Int × Nat) : Prop := b.2 ≤ a.2

/-- Order used by `sorted(..., key=lambda x: x[1])`. -/
def ascByCount (a b : Int × Nat) : Prop := a.2 ≤ b.2

instance : DecidableRel descByCount :=
  fun a b => inferInstanceAs (Decidable (b.2 ≤ a.2))

instance : DecidableRel ascByCount :=
  fun a b => inferInstanceAs (Decidable (a.2 ≤ b.2))

instance : IsTotal (Int × Nat) descByCount :=
  ⟨fun a b => Nat.le_total b.2 a.2⟩

instance : IsTrans (Int × Nat) descByCount :=
  ⟨fun _ _ _ h1 h2 => Nat.le_trans h2 h1⟩

instance : IsTotal (Int × Nat) ascByCount :=
  ⟨fun a b => Nat.le_total a.2 b.2⟩

instance : IsTrans (Int × Nat) ascByCount :=
  ⟨fun _ _ _ h1 h2 => Nat.le_trans h1 h2⟩

/-- `get_most_frequent_numbers` on an explicit table (the spec's
`rank_most_frequent`): Python's `sorted` is a stable sort, which
`List.insertionSort` with a total relation also is. -/
def rank_most_frequent (frequency : List (Int × Nat)) (count : Nat) :
    List (Int × Nat) :=
  (List.insertionSort descByCount frequency).take count

/-- `get_least_frequent_numbers` on an explicit table (the spec's
`rank_least_frequent`). -/
def rank_least_frequent (frequency : List (Int × Nat)) (count : Nat) :
    List (Int × Nat) :=
  (List.insertionSort ascByCount frequency).take count

/-- `get_most_frequent_numbers`, reading the table from the stored rows. -/
def get_most_frequent_numbers (rows : List String) (count : Nat) :
    List (Int × Nat) :=
  rank_most_frequent (calculate_frequency rows) count

/-- `get_least_frequent_numbers`, reading the table from the stored rows. -/
def get_least_frequent_numbers (rows : List String) (count : Nat) :
    List (Int × Nat) :=
  rank_least_frequent (calculate_frequency rows) count

/-- `get_number_ranges`. -/
def get_number_ranges (lottery_type : String) : Int × Int :=
  if lottery_type = "lotto649" then (1, 49)
  else if lottery_type = "lottomax" then (1, 50)
  else (1, 49)

/-- The inline `numbers_needed = 6 if lottery_type == "lotto649" else 7`
of `generate_frequency_based_entry`. -/
def numbers_needed (lottery_type : String) : Nat :=
  if lottery_type = "lotto649" then 6 else 7

/-- Python `range(min_num, max_num + 1)` as a list of integers. -/
def rangeList (min_num max_num : Int) : List Int :=
  (List.range (max_num + 1 - min_num).toNat).map
    (fun i : Nat => min_num + (i : Int))

/-- `random.choice(pool)` at tape position `t`. -/
def randChoice (rng : Nat → Nat) (t : Nat) (pool : List Int) : Int :=
  pool.getD (rng t % pool.length) 0

/-- `random.sample(pool, k)`: `k` draws without replacement, one tape cell
per draw.  (Python raises when `k` exceeds the pool; the model returns the
partial sample, a case none of the call sites reach.) -/
def randSample (rng : Nat → Nat) : Nat → List Int → Nat → List Int
  | _, _, 0 => []
  | t, pool, k + 1 =>
      if pool.isEmpty then []
      else
        pool.getD (rng t % pool.length) 0 ::
          randSample rng (t + 1) (pool.eraseIdx (rng t % pool.length)) k

/-- One pass of the `balanced` while-loop, with explicit fuel: each
iteration appends exactly one element, so fuel `needed - selected.length`
makes the fuelled loop exhaust exactly when the Python loop exits. -/
def fill_loop (rng : Nat → Nat) (min_num max_num : Int) (needed : Nat) :
    Nat → Nat → List Int → List Int
  | 0, _, selected => selected
  | fuel + 1, t, selected =>
      if selected.length < needed then
        fill_loop rng min_num max_num needed fuel (t + 1)
          (selected ++
            [randChoice rng t
              ((rangeList min_num max_num).filter
                (fun n => !selected.contains n))])
      else selected

/-- The `while len(selected) < numbers_needed` loop of the `balanced`
strategy. -/
def while_fill (rng : Nat → Nat) (min_num max_num : Int) (needed t : Nat)
    (selected : List Int) : List Int :=
  fill_loop rng min_num max_num needed (needed - selected.length) t selected

/-- The `hot` branch before its final random pick:
`selected = candidates[:numbers_needed - 1]` over the keys of the
`2 × numbers_needed` most-frequent ranking. -/
def hot_first_part (lottery_type : String) (frequency : List (Int × Nat)) :
    List Int :=
  ((rank_most_frequent frequency (numbers_needed lottery_type * 2)).map
      Prod.fst).take (numbers_needed lottery_type - 1)

/-- The `hot` branch's `remaining_pool`: the numbers of the range not
already selected. -/
def hot_pool (lottery_type : String) (frequency : List (Int × Nat)) :
    List Int :=
  (rangeList (get_number_ranges lottery_type).1
      (get_number_ranges lottery_type).2).filter
    (fun n => !(hot_first_part lottery_type frequency).contains n)

/-- The `hot` branch's full pre-sort selection. -/
def hot_selected (lottery_type : String) (frequency : List (Int × Nat))
    (rng : Nat → Nat) (t : Nat) : List Int :=
  hot_first_part lottery_type frequency ++
    [randChoice rng t (hot_pool lottery_type frequency)]

/-- The `cold` branch's pre-sort selection: first `numbers_needed` keys of
the `2 × numbers_needed` least-frequent ranking. -/
def cold_selected (lottery_type : String) (frequency : List (Int × Nat)) :
    List Int :=
  ((rank_least_frequent frequency (numbers_needed lottery_type * 2)).map
      Prod.fst).take (numbers_needed lottery_type)

/-- The `balanced` branch's `hot_picks + cold_picks` before the
while-loop fill. -/
def balanced_base (lottery_type : String) (frequency : List (Int × Nat)) :
    List Int :=
  ((rank_most_frequent frequency (numbers_needed lottery_type)).take
      (numbers_needed lottery_type / 2)).map Prod.fst ++
    ((rank_least_frequent frequency (numbers_needed lottery_type)).take
        (numbers_needed lottery_type / 2)).map Prod.fst

/-- The `balanced` branch's pre-sort selection. -/
def balanced_selected (lottery_type : String) (frequency : List (Int × Nat))
    (rng : Nat → Nat) (t : Nat) : List Int :=
  while_fill rng (get_number_ranges lottery_type).1
    (get_number_ranges lottery_type).2 (numbers_needed lottery_type) t
    (balanced_base lottery_type frequency)

/-- `generate_frequency_based_entry` on an explicit frequency table (the
spec's `generate_entry(profile, table, strategy)`); the unknown-strategy
branch re-enters with `"balanced"`, exactly as the Python code recurses. -/
def generate_entry (lottery_type strategy : String)
    (frequency : List (Int × Nat)) (rng : Nat → Nat) (t : Nat) : List Int :=
  if frequency = [] then
    List.insertionSort (· ≤ ·)
      (randSample rng t
        (rangeList (get_number_ranges lottery_type).1
          (get_number_ranges lottery_type).2)
        (numbers_needed lottery_type))
  else if _hhot : strategy = "hot" then
    List.insertionSort (· ≤ ·) (hot_selected lottery_type frequency rng t)
  else if _hcold : strategy = "cold" then
    List.insertionSort (· ≤ ·) (cold_selected lottery_type frequency)
  else if _hbal : strategy = "balanced" then
    List.insertionSort (· ≤ ·)
      (balanced_selected lottery_type frequency rng t)
  else if _hrand : strategy = "random" then
    List.insertionSort (· ≤ ·)
      (randSample rng t
        (rangeList (get_number_ranges lottery_type).1
          (get_number_ranges lottery_type).2)
        (numbers_needed lottery_type))
  else
    generate_entry lottery_type "balanced" frequency rng t
termination_by (if strategy = "balanced" then 0 else 1)
decreasing_by simp_all

/-- `generate_frequency_based_entry` as written: the table is computed
from the stored rows. -/
def generate_frequency_based_entry (rows : List String)
    (lottery_type strategy : String) (rng : Nat → Nat) (t : Nat) :
    List Int :=
  generate_entry lottery_type strategy (calculate_frequency rows) rng t

/-- One generated entry record, the dict built by
`generate_optimal_entries`. -/
structure GeneratedEntry where
  entry_number : Nat
  strategy : String
  numbers : List Int
deriving DecidableEq

/-- The fixed strategy rotation of `generate_optimal_entries`. -/
def strategies : List String := ["hot", "balanced", "cold", "random", "hot"]

/-- `generate_optimal_entries`; entry `i` consumes the tape `rng i`. -/
def generate_optimal_entries (rows : List String) (lottery_type : String)
    (num_entries : Nat) (rng : Nat → Nat → Nat) : List GeneratedEntry :=
  (List.range num_entries).map (fun i =>
    { entry_number := i + 1
      strategy := strategies.getD (i % strategies.length) ""
      numbers :=
        generate_frequency_based_entry rows lottery_type
          (strategies.getD (i % strategies.length) "") (rng i) 0 })

/-- The spec's Entry invariant for a lottery profile: exactly
`numbers_needed` distinct values, sorted ascending, all within
[min, max]. -/
def valid_entry (lottery_type : String) (e : List Int) : Prop :=
  e.length = numbers_needed lottery_type ∧ e.Nodup ∧
    List.Sorted (· ≤ ·) e ∧
    ∀ x ∈ e, (get_number_ranges lottery_type).1 ≤ x ∧
      x ≤ (get_number_ranges lottery_type).2

/-! ### Basic facts about the range, the random primitives and the loop -/

theorem mem_rangeList {min_num max_num x : Int} :
    x ∈ rangeList min_num max_num ↔ min_num ≤ x ∧ x ≤ max_num := by
  unfold rangeList
  simp only [List.mem_map, List.mem_range]
  constructor
  · rintro ⟨i, hi, rfl⟩
    omega
  · rintro ⟨h1, h2⟩
    exact ⟨(x - min_num).toNat, by omega, by omega⟩

theorem length_rangeList (min_num max_num : Int) :
    (rangeList min_num max_num).length = (max_num + 1 - min_num).toNat := by
  simp [rangeList]

theorem nodup_rangeList (min_num max_num : Int) :
    (rangeList min_num max_num).Nodup := by
  unfold rangeList
  exact (List.nodup_range _).map (fun a b hab => by omega)

theorem contains_eq_true_iff {l : List Int} {a : Int} :
    l.contains a = true ↔ a ∈ l := by
  simp [List.contains]

theorem length_filter_split {α : Type} (p : α → Bool) (l : List α) :
    (l.filter p).length + (l.filter (fun a => !p a)).length = l.length := by
  induction l with
  | nil => simp
  | cons a l ih =>
    by_cases h : p a <;> simp [List.filter_cons, h] <;> omega

theorem length_filter_not_contains (l sel : List Int) (hl : l.Nodup) :
    l.length ≤ (l.filter (fun n => !sel.contains n)).length + sel.length := by
  have hsub : (l.filter (fun n => sel.contains n)).length ≤ sel.length := by
    refine List.Subperm.length_le ?_
    refine List.Nodup.subperm ((List.filter_sublist l).nodup hl) ?_
    intro a ha
    exact contains_eq_true_iff.mp (List.mem_filter.mp ha).2
  have hsplit := length_filter_split (fun n => !sel.contains n) l
  simp only [Bool.not_not] at hsplit
  omega

theorem randChoice_mem (rng : Nat → Nat) (t : Nat) {pool : List Int}
    (h : pool ≠ []) : randChoice rng t pool ∈ pool := by
  unfold randChoice
  have hlen : 0 < pool.length := List.length_pos.mpr h
  have hlt : rng t % pool.length < pool.length := Nat.mod_lt _ hlen
  rw [List.getD_eq_getElem _ _ hlt]
  exact List.getElem_mem hlt

theorem perm_getD_cons_eraseIdx :
    ∀ (l : List Int) (i : Nat), i < l.length →
      l.Perm (l.getD i 0 :: l.eraseIdx i)
  | a :: l, 0, _ => by simp
  | a :: l, i + 1, h => by
    have hi : i < l.length := by simpa using h
    have ih := perm_getD_cons_eraseIdx l i hi
    simp only [List.getD_cons_succ, List.eraseIdx_cons_succ]
    exact (ih.cons a).trans (List.Perm.swap (l.getD i 0) a (l.eraseIdx i))

theorem randSample_length (rng : Nat → Nat) :
    ∀ (k t : Nat) (pool : List Int),
      (randSample rng t pool k).length = min k pool.length
  | 0, t, pool => by simp [randSample]
  | k + 1, t, pool => by
    rw [randSample]
    by_cases h : pool.isEmpty
    · simp [h, List.isEmpty_iff.mp h]
    · have hpos : 0 < pool.length :=
        List.length_pos.mpr (by simpa [List.isEmpty_iff] using h)
      have hlt : rng t % pool.length < pool.length := Nat.mod_lt _ hpos
      rw [if_neg h, List.length_cons,
        randSample_length rng k (t + 1) (pool.eraseIdx (rng t % pool.length)),
        List.length_eraseIdx]
      simp only [hlt, if_true]
      omega

theorem randSample_nodup_subset (rng : Nat → Nat) :
    ∀ (k t : Nat) (pool : List Int), pool.Nodup →
      (randSample rng t pool k).Nodup ∧
        ∀ x ∈ randSample rng t pool k, x ∈ pool
  | 0, t, pool, _ => by simp [randSample]
  | k + 1, t, pool, hnd => by
    rw [randSample]
    by_cases h : pool.isEmpty
    · simp [h]
    · have hpos : 0 < pool.length :=
        List.length_pos.mpr (by simpa [List.isEmpty_iff] using h)
      have hlt : rng t % pool.length < pool.length := Nat.mod_lt _ hpos
      have hperm := perm_getD_cons_eraseIdx pool (rng t % pool.length) hlt
      have hnd2 : (pool.getD (rng t % pool.length) 0 ::
          pool.eraseIdx (rng t % pool.length)).Nodup :=
        hperm.nodup_iff.mp hnd
      have hc : pool.getD (rng t % pool.length) 0 ∉
          pool.eraseIdx (rng t % pool.length) := (List.nodup_cons.mp hnd2).1
      have hnd3 : (pool.eraseIdx (rng t % pool.length)).Nodup :=
        (List.nodup_cons.mp hnd2).2
      have ih := randSample_nodup_subset rng k (t + 1)
        (pool.eraseIdx (rng t % pool.length)) hnd3
      rw [if_neg h]
      constructor
      · exact List.nodup_cons.mpr ⟨fun hmem => hc (ih.2 _ hmem), ih.1⟩
      · intro x hx
        rcases List.mem_cons.mp hx with hx | hx
        · exact hx ▸ hperm.mem_iff.mpr (List.mem_cons_self _ _)
        · exact hperm.mem_iff.mpr (List.mem_cons_of_mem _ (ih.2 _ hx))

theorem fill_loop_length (rng : Nat → Nat) (min_num max_num : Int)
    (needed : Nat) :
    ∀ (fuel t : Nat) (sel : List Int),
      (fill_loop rng min_num max_num needed fuel t sel).length =
        max sel.length (min needed (sel.length + fuel))
  | 0, t, sel => by simp only [fill_loop]; omega
  | fuel + 1, t, sel => by
    rw [fill_loop]
    by_cases h : sel.length < needed
    · rw [if_pos h, fill_loop_length rng min_num max_num needed fuel (t + 1)]
      simp only [List.length_append, List.length_cons, List.length_nil]
      omega
    · rw [if_neg h]
      omega

theorem fill_loop_props (rng : Nat → Nat) (min_num max_num : Int)
    (needed : Nat)
    (hn : needed ≤ (rangeList min_num max_num).length) :
    ∀ (fuel t : Nat) (sel : List Int), sel.Nodup →
      (fill_loop rng min_num max_num needed fuel t sel).Nodup ∧
        ∀ x ∈ fill_loop rng min_num max_num needed fuel t sel,
          x ∈ sel ∨ x ∈ rangeList min_num max_num
  | 0, t, sel, hnd => by simp only [fill_loop]; exact ⟨hnd, fun x hx => .inl hx⟩
  | fuel + 1, t, sel, hnd => by
    rw [fill_loop]
    by_cases h : sel.length < needed
    · rw [if_pos h]
      set pool := (rangeList min_num max_num).filter
        (fun n => !sel.contains n) with hpool
      have hpoolpos : pool ≠ [] := by
        have := length_filter_not_contains (rangeList min_num max_num) sel
          (nodup_rangeList min_num max_num)
        intro hemp
        rw [hpool] at hemp
        rw [hemp] at this
        simp at this
        omega
      have hcmem := randChoice_mem rng t hpoolpos
      have hcrange : randChoice rng t pool ∈ rangeList min_num max_num :=
        (List.mem_filter.mp hcmem).1
      have hcnot : randChoice rng t pool ∉ sel := by
        have h2 := (List.mem_filter.mp hcmem).2
        intro hmem
        rw [contains_eq_true_iff.mpr hmem] at h2
        simp at h2
      have hnd2 : (sel ++ [randChoice rng t pool]).Nodup := by
        rw [List.nodup_append]
        refine ⟨hnd, List.nodup_singleton _, fun a ha hb => ?_⟩
        simp only [List.mem_singleton] at hb
        exact hcnot (hb ▸ ha)
      have ih := fill_loop_props rng min_num max_num needed hn fuel (t + 1)
        (sel ++ [randChoice rng t pool]) hnd2
      refine ⟨ih.1, fun x hx => ?_⟩
      rcases ih.2 x hx with hx2 | hx2
      · rcases List.mem_append.mp hx2 with hx3 | hx3
        · exact .inl hx3
        · simp only [List.mem_singleton] at hx3
          exact .inr (hx3 ▸ hcrange)
      · exact .inr hx2
    · rw [if_neg h]
      exact ⟨hnd, fun x hx => .inl hx⟩

/-! ### Facts about the frequency counter -/

theorem countVal_nil (n : Int) : countVal [] n = 0 := rfl

theorem countVal_cons (p : Int × Nat) (l : List (Int × Nat)) (n : Int) :
    countVal (p :: l) n = (if p.1 = n then p.2 else 0) + countVal l n := by
  by_cases h : p.1 = n <;> simp [countVal, List.filter_cons, h]

theorem countVal_counter_update_one (f : List (Int × Nat)) (m n : Int) :
    countVal (counter_update_one f m) n =
      countVal f n + (if m = n then 1 else 0) := by
  induction f with
  | nil =>
    by_cases h : m = n <;>
      simp [counter_update_one, countVal_cons, countVal_nil, h]
  | cons p rest ih =>
    obtain ⟨k, c⟩ := p
    by_cases hkm : k = m
    · subst hkm
      have h1 : counter_update_one ((k, c) :: rest) k = (k, c + 1) :: rest := by
        simp [counter_update_one]
      rw [h1, countVal_cons, countVal_cons]
      by_cases hkn : k = n <;> simp [hkn] <;> omega
    · have h1 : counter_update_one ((k, c) :: rest) m =
          (k, c) :: counter_update_one rest m := by
        simp [counter_update_one, hkm]
      rw [h1, countVal_cons, countVal_cons, ih]
      omega

theorem countVal_counter_update (n : Int) :
    ∀ (draw : List Int) (f : List (Int × Nat)),
      countVal (counter_update f draw) n = countVal f n + draw.count n
  | [], f => by simp [counter_update]
  | a :: draw, f => by
    have h1 := countVal_counter_update n draw (counter_update_one f a)
    have h2 := countVal_counter_update_one f a n
    have h3 : counter_update f (a :: draw) =
        counter_update (counter_update_one f a) draw := rfl
    rw [h3, h1, h2, List.count_cons]
    by_cases h : a = n <;> simp [h] <;> omega

theorem countVal_foldl (n : Int) :
    ∀ (draws : List (List Int)) (f : List (Int × Nat)),
      countVal (draws.foldl counter_update f) n =
        countVal f n + (draws.map (fun d => d.count n)).sum
  | [], f => by simp
  | d :: draws, f => by
    have h1 := countVal_foldl n draws (counter_update f d)
    simp only [List.foldl_cons, List.map_cons, List.sum_cons] at h1 ⊢
    rw [h1, countVal_counter_update]
    omega

theorem countVal_compute_frequency (draws : List (List Int)) (n : Int) :
    countVal (compute_frequency draws) n = draws.flatten.count n := by
  rw [compute_frequency, countVal_foldl, countVal_nil, List.count_flatten]
  simp

theorem sumVals_counter_update_one (f : List (Int × Nat)) (m : Int) :
    sumVals (counter_update_one f m) = sumVals f + 1 := by
  induction f with
  | nil => simp [counter_update_one, sumVals]
  | cons p rest ih =>
    obtain ⟨k, c⟩ := p
    by_cases hkm : k = m <;> simp [counter_update_one, sumVals, hkm] at ih ⊢ <;>
      omega

theorem sumVals_counter_update :
    ∀ (draw : List Int) (f : List (Int × Nat)),
      sumVals (counter_update f draw) = sumVals f + draw.length
  | [], f => by simp [counter_update]
  | a :: draw, f => by
    have h1 := sumVals_counter_update draw (counter_update_one f a)
    have h3 : counter_update f (a :: draw) =
        counter_update (counter_update_one f a) draw := rfl
    rw [h3, h1, sumVals_counter_update_one]
    simp
    omega

theorem sumVals_foldl :
    ∀ (draws : List (List Int)) (f : List (Int × Nat)),
      sumVals (draws.foldl counter_update f) =
        sumVals f + (draws.map List.length).sum
  | [], f => by simp
  | d :: draws, f => by
    have h1 := sumVals_foldl draws (counter_update f d)
    simp only [List.foldl_cons, List.map_cons, List.sum_cons] at h1 ⊢
    rw [h1, sumVals_counter_update]
    omega

theorem sumVals_compute_frequency (draws : List (List Int)) :
    sumVals (compute_frequency draws) = (draws.map List.length).sum := by
  rw [compute_frequency, sumVals_foldl]
  simp [sumVals]

theorem pos_counter_update_one {f : List (Int × Nat)} (m : Int)
    (hf : ∀ p ∈ f, 0 < p.2) : ∀ p ∈ counter_update_one f m, 0 < p.2 := by
  induction f with
  | nil => simp [counter_update_one]
  | cons q rest ih =>
    obtain ⟨k, c⟩ := q
    intro p hp
    by_cases hkm : k = m
    · simp only [counter_update_one, hkm, if_pos rfl] at hp
      rcases List.mem_cons.mp hp with h | h
      · simp [h]
      · exact hf p (List.mem_cons_of_mem _ h)
    · simp only [counter_update_one, if_neg hkm] at hp
      rcases List.mem_cons.mp hp with h | h
      · exact h ▸ hf (k, c) (List.mem_cons_self _ _)
      · exact ih (fun q hq => hf q (List.mem_cons_of_mem _ hq)) p h

theorem pos_counter_update {f : List (Int × Nat)} :
    ∀ (draw : List Int), (∀ p ∈ f, 0 < p.2) →
      ∀ p ∈ counter_update f draw, 0 < p.2 := by
  intro draw
  induction draw generalizing f with
  | nil => intro hf; simpa [counter_update] using hf
  | cons a draw ih =>
    intro hf
    exact ih (pos_counter_update_one a hf)

theorem pos_compute_frequency (draws : List (List Int)) :
    ∀ p ∈ compute_frequency draws, 0 < p.2 := by
  rw [compute_frequency]
  have h : ∀ (f : List (Int × Nat)), (∀ p ∈ f, 0 < p.2) →
      ∀ p ∈ draws.foldl counter_update f, 0 < p.2 := by
    induction draws with
    | nil => intro f hf; simpa using hf
    | cons d draws ih =>
      intro f hf
      exact ih _ (pos_counter_update d hf)
  exact h [] (by simp)

theorem key_mem_iff_countVal_pos {f : List (Int × Nat)}
    (hpos : ∀ p ∈ f, 0 < p.2) (n : Int) :
    (∃ p ∈ f, p.1 = n) ↔ 0 < countVal f n := by
  constructor
  · rintro ⟨p, hp, rfl⟩
    by_contra h
    have h0 : countVal f p.1 = 0 := by omega
    unfold countVal at h0
    have := List.sum_eq_zero_iff.mp h0 p.2
      (List.mem_map.mpr ⟨p, List.mem_filter.mpr ⟨hp, by simp⟩, rfl⟩)
    exact Nat.lt_irrefl 0 (this ▸ hpos p hp)
  · intro h
    by_contra hno
    push_neg at hno
    have hfil : f.filter (fun p => p.1 == n) = [] := by
      rw [List.filter_eq_nil_iff]
      intro p hp
      simpa using hno p hp
    unfold countVal at h
    rw [hfil] at h
    simp at h

theorem key_mem_compute_frequency_iff (draws : List (List Int)) (n : Int) :
    (∃ p ∈ compute_frequency draws, p.1 = n) ↔ ∃ d ∈ draws, n ∈ d := by
  rw [key_mem_iff_countVal_pos (pos_compute_frequency draws),
    countVal_compute_frequency, List.count_pos_iff, List.mem_flatten]

/-! ### Stability of the ranking sorts -/

theorem filter_orderedInsert_pos {α : Type} (r : α → α → Prop)
    [DecidableRel r] (p : α → Bool) (a : α) (ha : p a = true)
    (hrel : ∀ b, ¬r a b → p b = false) :
    ∀ l : List α, (List.orderedInsert r a l).filter p = a :: l.filter p
  | [] => by simp [ha]
  | b :: l => by
    by_cases hr : r a b
    · simp [List.orderedInsert, hr, ha]
    · have hb : p b = false := hrel b hr
      simp only [List.orderedInsert, if_neg hr, List.filter_cons, hb,
        Bool.false_eq_true, if_false]
      rw [filter_orderedInsert_pos r p a ha hrel l]

theorem filter_orderedInsert_neg {α : Type} (r : α → α → Prop)
    [DecidableRel r] (p : α → Bool) (a : α) (ha : p a = false) :
    ∀ l : List α, (List.orderedInsert r a l).filter p = l.filter p
  | [] => by simp [ha]
  | b :: l => by
    by_cases hr : r a b
    · simp [List.orderedInsert, hr, ha]
    · simp only [List.orderedInsert, if_neg hr, List.filter_cons]
      rw [filter_orderedInsert_neg r p a ha l]

/-- A stable sort leaves each tie class (here: the elements whose key the
Bool predicate `p` singles out) in its original relative order. -/
theorem filter_insertionSort {α : Type} (r : α → α → Prop) [DecidableRel r]
    (p : α → Bool) (hp : ∀ a b, p a = true → p b = true → r a b) :
    ∀ l : List α, (List.insertionSort r l).filter p = l.filter p
  | [] => rfl
  | a :: l => by
    simp only [List.insertionSort]
    by_cases ha : p a
    · rw [filter_orderedInsert_pos r p a ha
        (fun b hb => by
          by_cases hpb : p b
          · exact absurd (hp a b ha hpb) hb
          · simpa using hpb),
        filter_insertionSort r p hp l, List.filter_cons, ha]
      simp
    · have ha2 : p a = false := by simpa using ha
      rw [filter_orderedInsert_neg r p a ha2, filter_insertionSort r p hp l,
        List.filter_cons, ha2]
      simp

/-! ### Profile facts -/

theorem get_number_ranges_cases (lottery_type : String) :
    get_number_ranges lottery_type = (1, 49) ∨
      get_number_ranges lottery_type = (1, 50) := by
  unfold get_number_ranges
  split_ifs <;> simp

theorem min_num_eq_one (lottery_type : String) :
    (get_number_ranges lottery_type).1 = 1 := by
  rcases get_number_ranges_cases lottery_type with h | h <;> rw [h]

theorem numbers_needed_cases (lottery_type : String) :
    numbers_needed lottery_type = 6 ∨ numbers_needed lottery_type = 7 := by
  unfold numbers_needed
  split_ifs <;> simp

theorem rangeLen_ge (lottery_type : String) :
    49 ≤ (rangeList (get_number_ranges lottery_type).1
      (get_number_ranges lottery_type).2).length := by
  rcases get_number_ranges_cases lottery_type with h | h <;>
    rw [h, length_rangeList] <;> simp

/-! ### Validity of each strategy's selection -/

theorem sort_valid_entry (lottery_type : String) (sel : List Int)
    (hlen : sel.length = numbers_needed lottery_type) (hnd : sel.Nodup)
    (hmem : ∀ x ∈ sel, (get_number_ranges lottery_type).1 ≤ x ∧
      x ≤ (get_number_ranges lottery_type).2) :
    valid_entry lottery_type (List.insertionSort (· ≤ ·) sel) := by
  refine ⟨?_, ?_, ?_, ?_⟩
  · rw [List.length_insertionSort, hlen]
  · exact (List.perm_insertionSort _ sel).nodup_iff.mpr hnd
  · exact List.sorted_insertionSort _ sel
  · intro x hx
    exact hmem x ((List.perm_insertionSort _ sel).mem_iff.mp hx)

theorem keys_of_sort (r : (Int × Nat) → (Int × Nat) → Prop) [DecidableRel r]
    {freq : List (Int × Nat)} (h : (freq.map Prod.fst).Nodup) :
    ((List.insertionSort r freq).map Prod.fst).Nodup ∧
      ∀ x ∈ (List.insertionSort r freq).map Prod.fst,
        x ∈ freq.map Prod.fst := by
  have hperm := (List.perm_insertionSort r freq).map Prod.fst
  exact ⟨hperm.nodup_iff.mpr h, fun x hx => hperm.mem_iff.mp hx⟩

theorem range_of_keys {lottery_type : String} {freq : List (Int × Nat)}
    (hrange : ∀ p ∈ freq, (get_number_ranges lottery_type).1 ≤ p.1 ∧
      p.1 ≤ (get_number_ranges lottery_type).2)
    {x : Int} (hx : x ∈ freq.map Prod.fst) :
    (get_number_ranges lottery_type).1 ≤ x ∧
      x ≤ (get_number_ranges lottery_type).2 := by
  obtain ⟨p, hp, rfl⟩ := List.mem_map.mp hx
  exact hrange p hp

theorem hot_first_part_sublist (lottery_type : String)
    (freq : List (Int × Nat)) :
    (hot_first_part lottery_type freq).Sublist
      ((List.insertionSort descByCount freq).map Prod.fst) := by
  unfold hot_first_part rank_most_frequent
  exact (List.take_sublist _ _).trans ((List.take_sublist _ _).map Prod.fst)

theorem hot_first_part_length (lottery_type : String)
    (freq : List (Int × Nat))
    (hbig : numbers_needed lottery_type * 2 ≤ freq.length) :
    (hot_first_part lottery_type freq).length =
      numbers_needed lottery_type - 1 := by
  unfold hot_first_part rank_most_frequent
  simp only [List.length_take, List.length_map, List.length_insertionSort]
  rcases numbers_needed_cases lottery_type with h | h <;> rw [h] at hbig ⊢ <;>
    omega

theorem hot_first_part_length_le (lottery_type : String)
    (freq : List (Int × Nat)) :
    (hot_first_part lottery_type freq).length ≤
      numbers_needed lottery_type - 1 := by
  unfold hot_first_part
  rw [List.length_take]
  omega

theorem hot_pool_ne (lottery_type : String) (freq : List (Int × Nat)) :
    hot_pool lottery_type freq ≠ [] := by
  have hf := length_filter_not_contains
    (rangeList (get_number_ranges lottery_type).1
      (get_number_ranges lottery_type).2)
    (hot_first_part lottery_type freq) (nodup_rangeList _ _)
  have h49 := rangeLen_ge lottery_type
  have hle := hot_first_part_length_le lottery_type freq
  intro hemp
  unfold hot_pool at hemp
  rw [hemp] at hf
  rcases numbers_needed_cases lottery_type with h | h <;> rw [h] at hle <;>
    simp at hf <;> omega

theorem hot_selected_valid (lottery_type : String) (freq : List (Int × Nat))
    (rng : Nat → Nat) (t : Nat)
    (hkeys : (freq.map Prod.fst).Nodup)
    (hrange : ∀ p ∈ freq, (get_number_ranges lottery_type).1 ≤ p.1 ∧
      p.1 ≤ (get_number_ranges lottery_type).2)
    (hbig : numbers_needed lottery_type * 2 ≤ freq.length) :
    valid_entry lottery_type
      (List.insertionSort (· ≤ ·) (hot_selected lottery_type freq rng t)) := by
  have hsub := hot_first_part_sublist lottery_type freq
  have hks := keys_of_sort descByCount hkeys
  have hnd : (hot_first_part lottery_type freq).Nodup := hsub.nodup hks.1
  have hmem : ∀ x ∈ hot_first_part lottery_type freq,
      (get_number_ranges lottery_type).1 ≤ x ∧
        x ≤ (get_number_ranges lottery_type).2 :=
    fun x hx => range_of_keys hrange (hks.2 x (hsub.subset hx))
  have hlen := hot_first_part_length lottery_type freq hbig
  have hcmem := randChoice_mem rng t (hot_pool_ne lottery_type freq)
  have hcrange := (List.mem_filter.mp hcmem).1
  have hcnot : randChoice rng t (hot_pool lottery_type freq) ∉
      hot_first_part lottery_type freq := by
    have h2 := (List.mem_filter.mp hcmem).2
    intro hmemc
    rw [contains_eq_true_iff.mpr hmemc] at h2
    simp at h2
  refine sort_valid_entry lottery_type _ ?_ ?_ ?_
  · unfold hot_selected
    rw [List.length_append, hlen]
    rcases numbers_needed_cases lottery_type with h | h <;> rw [h] <;> simp
  · unfold hot_selected
    rw [List.nodup_append]
    refine ⟨hnd, List.nodup_singleton _, fun a ha hb => ?_⟩
    simp only [List.mem_singleton] at hb
    exact hcnot (hb ▸ ha)
  · unfold hot_selected
    intro x hx
    rcases List.mem_append.mp hx with hx | hx
    · exact hmem x hx
    · simp only [List.mem_singleton] at hx
      subst hx
      exact mem_rangeList.mp hcrange

theorem cold_selected_sublist (lottery_type : String)
    (freq : List (Int × Nat)) :
    (cold_selected lottery_type freq).Sublist
      ((List.insertionSort ascByCount freq).map Prod.fst) := by
  unfold cold_selected rank_least_frequent
  exact (List.take_sublist _ _).trans ((List.take_sublist _ _).map Prod.fst)

theorem cold_selected_valid (lottery_type : String) (freq : List (Int × Nat))
    (hkeys : (freq.map Prod.fst).Nodup)
    (hrange : ∀ p ∈ freq, (get_number_ranges lottery_type).1 ≤ p.1 ∧
      p.1 ≤ (get_number_ranges lottery_type).2)
    (hbig : numbers_needed lottery_type * 2 ≤ freq.length) :
    valid_entry lottery_type
      (List.insertionSort (· ≤ ·) (cold_selected lottery_type freq)) := by
  have hsub := cold_selected_sublist lottery_type freq
  have hks := keys_of_sort ascByCount hkeys
  refine sort_valid_entry lottery_type _ ?_ (hsub.nodup hks.1)
    (fun x hx => range_of_keys hrange (hks.2 x (hsub.subset hx)))
  unfold cold_selected rank_least_frequent
  simp only [List.length_take, List.length_map, List.length_insertionSort]
  omega

theorem balanced_base_parts_sublist (lottery_type : String)
    (freq : List (Int × Nat)) :
    (((rank_most_frequent freq (numbers_needed lottery_type)).take
        (numbers_needed lottery_type / 2)).map Prod.fst).Sublist
      ((List.insertionSort descByCount freq).map Prod.fst) ∧
    (((rank_least_frequent freq (numbers_needed lottery_type)).take
        (numbers_needed lottery_type / 2)).map Prod.fst).Sublist
      ((List.insertionSort ascByCount freq).map Prod.fst) := by
  unfold rank_most_frequent rank_least_frequent
  exact ⟨((List.take_sublist _ _).trans (List.take_sublist _ _)).map Prod.fst,
    ((List.take_sublist _ _).trans (List.take_sublist _ _)).map Prod.fst⟩

theorem balanced_base_length (lottery_type : String)
    (freq : List (Int × Nat))
    (hbig : numbers_needed lottery_type * 2 ≤ freq.length) :
    (balanced_base lottery_type freq).length =
      numbers_needed lottery_type / 2 + numbers_needed lottery_type / 2 := by
  unfold balanced_base rank_most_frequent rank_least_frequent
  simp only [List.length_append, List.length_map, List.length_take,
    List.length_insertionSort]
  rcases numbers_needed_cases lottery_type with h | h <;> rw [h] at hbig ⊢ <;>
    omega

theorem balanced_selected_valid (lottery_type : String)
    (freq : List (Int × Nat)) (rng : Nat → Nat) (t : Nat)
    (hkeys : (freq.map Prod.fst).Nodup)
    (hrange : ∀ p ∈ freq, (get_number_ranges lottery_type).1 ≤ p.1 ∧
      p.1 ≤ (get_number_ranges lottery_type).2)
    (hbig : numbers_needed lottery_type * 2 ≤ freq.length)
    (hdisj : List.Disjoint
      (((rank_most_frequent freq (numbers_needed lottery_type)).take
          (numbers_needed lottery_type / 2)).map Prod.fst)
      (((rank_least_frequent freq (numbers_needed lottery_type)).take
          (numbers_needed lottery_type / 2)).map Prod.fst)) :
    valid_entry lottery_type
      (List.insertionSort (· ≤ ·)
        (balanced_selected lottery_type freq rng t)) := by
  obtain ⟨hsub1, hsub2⟩ := balanced_base_parts_sublist lottery_type freq
  have hksd := keys_of_sort descByCount hkeys
  have hksa := keys_of_sort ascByCount hkeys
  have hbnd : (balanced_base lottery_type freq).Nodup := by
    unfold balanced_base
    rw [List.nodup_append]
    exact ⟨hsub1.nodup hksd.1, hsub2.nodup hksa.1, hdisj⟩
  have hbmem : ∀ x ∈ balanced_base lottery_type freq,
      (get_number_ranges lottery_type).1 ≤ x ∧
        x ≤ (get_number_ranges lottery_type).2 := by
    intro x hx
    unfold balanced_base at hx
    rcases List.mem_append.mp hx with hx | hx
    · exact range_of_keys hrange (hksd.2 x (hsub1.subset hx))
    · exact range_of_keys hrange (hksa.2 x (hsub2.subset hx))
  have hblen := balanced_base_length lottery_type freq hbig
  have hnrange : numbers_needed lottery_type ≤
      (rangeList (get_number_ranges lottery_type).1
        (get_number_ranges lottery_type).2).length := by
    have := rangeLen_ge lottery_type
    rcases numbers_needed_cases lottery_type with h | h <;> rw [h] <;> omega
  have hfill := fill_loop_props rng (get_number_ranges lottery_type).1
    (get_number_ranges lottery_type).2 (numbers_needed lottery_type) hnrange
    (numbers_needed lottery_type - (balanced_base lottery_type freq).length)
    t (balanced_base lottery_type freq) hbnd
  have hfilllen := fill_loop_length rng (get_number_ranges lottery_type).1
    (get_number_ranges lottery_type).2 (numbers_needed lottery_type)
    (numbers_needed lottery_type - (balanced_base lottery_type freq).length)
    t (balanced_base lottery_type freq)
  refine sort_valid_entry lottery_type _ ?_ ?_ ?_
  · show (while_fill _ _ _ _ _ _).length = _
    unfold while_fill
    rw [hfilllen, hblen]
    rcases numbers_needed_cases lottery_type with h | h <;> rw [h] at hblen ⊢ <;>
      omega
  · exact hfill.1
  · intro x hx
    rcases hfill.2 x hx with hx2 | hx2
    · exact hbmem x hx2
    · exact mem_rangeList.mp hx2

theorem randSample_entry_valid (lottery_type : String) (rng : Nat → Nat)
    (t : Nat) :
    valid_entry lottery_type
      (List.insertionSort (· ≤ ·)
        (randSample rng t
          (rangeList (get_number_ranges lottery_type).1
            (get_number_ranges lottery_type).2)
          (numbers_needed lottery_type))) := by
  have hnd := nodup_rangeList (get_number_ranges lottery_type).1
    (get_number_ranges lottery_type).2
  have hprops := randSample_nodup_subset rng (numbers_needed lottery_type) t _
    hnd
  refine sort_valid_entry lottery_type _ ?_ hprops.1
    (fun x hx => mem_rangeList.mp (hprops.2 x hx))
  rw [randSample_length]
  have := rangeLen_ge lottery_type
  rcases numbers_needed_cases lottery_type with h | h <;> rw [h] <;> omega

/-! ### Unfolding `generate_entry` branch by branch -/

theorem generate_entry_of_empty (lottery_type strategy : String)
    (rng : Nat → Nat) (t : Nat) :
    generate_entry lottery_type strategy [] rng t =
      List.insertionSort (· ≤ ·)
        (randSample rng t
          (rangeList (get_number_ranges lottery_type).1
            (get_number_ranges lottery_type).2)
          (numbers_needed lottery_type)) := by
  rw [generate_entry]
  simp

theorem generate_entry_of_hot (lottery_type : String)
    (freq : List (Int × Nat)) (rng : Nat → Nat) (t : Nat) (h : freq ≠ []) :
    generate_entry lottery_type "hot" freq rng t =
      List.insertionSort (· ≤ ·) (hot_selected lottery_type freq rng t) := by
  rw [generate_entry]
  simp [h]

theorem generate_entry_of_cold (lottery_type : String)
    (freq : List (Int × Nat)) (rng : Nat → Nat) (t : Nat) (h : freq ≠ []) :
    generate_entry lottery_type "cold" freq rng t =
      List.insertionSort (· ≤ ·) (cold_selected lottery_type freq) := by
  rw [generate_entry]
  simp [h]

theorem generate_entry_of_balanced (lottery_type : String)
    (freq : List (Int × Nat)) (rng : Nat → Nat) (t : Nat) (h : freq ≠ []) :
    generate_entry lottery_type "balanced" freq rng t =
      List.insertionSort (· ≤ ·)
        (balanced_selected lottery_type freq rng t) := by
  rw [generate_entry]
  simp [h]

theorem generate_entry_of_random (lottery_type : String)
    (freq : List (Int × Nat)) (rng : Nat → Nat) (t : Nat) (h : freq ≠ []) :
    generate_entry lottery_type "random" freq rng t =
      List.insertionSort (· ≤ ·)
        (randSample rng t
          (rangeList (get_number_ranges lottery_type).1
            (get_number_ranges lottery_type).2)
          (numbers_needed lottery_type)) := by
  rw [generate_entry]
  simp [h]

theorem generate_entry_of_unknown (lottery_type strategy : String)
    (freq : List (Int × Nat)) (rng : Nat → Nat) (t : Nat)
    (h1 : strategy ≠ "hot") (h2 : strategy ≠ "cold")
    (h3 : strategy ≠ "balanced") (h4 : strategy ≠ "random") :
    generate_entry lottery_type strategy freq rng t =
      generate_entry lottery_type "balanced" freq rng t := by
  by_cases hf : freq = []
  · subst hf
    rw [generate_entry_of_empty, generate_entry_of_empty]
  · conv_lhs => rw [generate_entry]
    simp [hf, h1, h2, h3, h4]

/-! ### The claims -/

/-- Claim C1, counterexample: on the reachable one-key table built from the
stored row `"5"`, the `cold` strategy returns a single number, not
`numbers_needed` of them — the claim fails as stated. -/
theorem C1_counterexample :
    ¬ ((generate_frequency_based_entry ["5"] "lotto649" "cold"
          (fun _ => 0) 0).length = numbers_needed "lotto649") := by
  have hval : generate_frequency_based_entry ["5"] "lotto649" "cold"
      (fun _ => 0) 0 = [5] := by
    show generate_entry "lotto649" "cold" (calculate_frequency ["5"])
        (fun _ => 0) 0 = [5]
    rw [generate_entry]
    decide
  rw [hval]
  decide

/-- Claim C1 (amended): for every profile and strategy string,
`generate_entry` on a table whose keys are distinct and within [min, max],
which holds at least `2 × numbers_needed` entries, and whose two balanced
half-rankings are disjoint, returns exactly `numbers_needed` distinct
integers, sorted ascending, each within [min, max]. -/
theorem C1_generate_entry_valid (lottery_type strategy : String)
    (freq : List (Int × Nat)) (rng : Nat → Nat) (t : Nat)
    (hkeys : (freq.map Prod.fst).Nodup)
    (hrange : ∀ p ∈ freq, (get_number_ranges lottery_type).1 ≤ p.1 ∧
      p.1 ≤ (get_number_ranges lottery_type).2)
    (hbig : numbers_needed lottery_type * 2 ≤ freq.length)
    (hdisj : List.Disjoint
      (((rank_most_frequent freq (numbers_needed lottery_type)).take
          (numbers_needed lottery_type / 2)).map Prod.fst)
      (((rank_least_frequent freq (numbers_needed lottery_type)).take
          (numbers_needed lottery_type / 2)).map Prod.fst)) :
    valid_entry lottery_type
      (generate_entry lottery_type strategy freq rng t) := by
  have hne : freq ≠ [] := by
    intro h
    rw [h] at hbig
    rcases numbers_needed_cases lottery_type with h6 | h6 <;> rw [h6] at hbig <;>
      simp at hbig
  by_cases h1 : strategy = "hot"
  · rw [h1, generate_entry_of_hot _ _ _ _ hne]
    exact hot_selected_valid lottery_type freq rng t hkeys hrange hbig
  by_cases h2 : strategy = "cold"
  · rw [h2, generate_entry_of_cold _ _ _ _ hne]
    exact cold_selected_valid lottery_type freq hkeys hrange hbig
  by_cases h3 : strategy = "balanced"
  · rw [h3, generate_entry_of_balanced _ _ _ _ hne]
    exact balanced_selected_valid lottery_type freq rng t hkeys hrange hbig
      hdisj
  by_cases h4 : strategy = "random"
  · rw [h4, generate_entry_of_random _ _ _ _ hne]
    exact randSample_entry_valid lottery_type rng t
  rw [generate_entry_of_unknown _ _ _ _ _ h1 h2 h3 h4,
    generate_entry_of_balanced _ _ _ _ hne]
  exact balanced_selected_valid lottery_type freq rng t hkeys hrange hbig
    hdisj

/-- Witness for the amended C1 at a concrete twelve-key table. -/
theorem C1_witness :
    valid_entry "lotto649"
      (generate_entry "lotto649" "hot"
        [(1, 12), (2, 11), (3, 10), (4, 9), (5, 8), (6, 7), (7, 6), (8, 5),
          (9, 4), (10, 3), (11, 2), (12, 1)] (fun _ => 0) 0) :=
  C1_generate_entry_valid "lotto649" "hot"
    [(1, 12), (2, 11), (3, 10), (4, 9), (5, 8), (6, 7), (7, 6), (8, 5),
      (9, 4), (10, 3), (11, 2), (12, 1)] (fun _ => 0) 0
    (by decide) (by decide) (by decide)
    (by intro a ha hb; revert a; exact (by decide))

/-- Claim C2, counterexample: an unrecognized lottery identifier does get
the fallback range (1, 49), but its numbers-per-entry count is 7, not 6. -/
theorem C2_counterexample :
    ¬ (get_number_ranges "powerball" = (1, 49) ∧
        numbers_needed "powerball" = 6) := by
  decide

/-- Claim C2 (amended): the two known identifiers map to {1..49, 6} and
{1..50, 7}; every unrecognized identifier falls back to the range (1, 49)
but to a numbers-per-entry count of 7 (the non-lotto649 count). -/
theorem C2_profile_lookup (lottery_type : String) :
    (get_number_ranges "lotto649" = (1, 49) ∧
      numbers_needed "lotto649" = 6) ∧
    (get_number_ranges "lottomax" = (1, 50) ∧
      numbers_needed "lottomax" = 7) ∧
    (lottery_type ≠ "lotto649" → lottery_type ≠ "lottomax" →
      get_number_ranges lottery_type = (1, 49) ∧
        numbers_needed lottery_type = 7) := by
  refine ⟨by decide, by decide, fun h1 h2 => ?_⟩
  unfold get_number_ranges numbers_needed
  rw [if_neg h1, if_neg h2, if_neg h1]
  exact ⟨rfl, rfl⟩

/-- Witness for the amended C2 at the unrecognized identifier
`"powerball"`. -/
theorem C2_witness :
    get_number_ranges "powerball" = (1, 49) ∧
      numbers_needed "powerball" = 7 :=
  (C2_profile_lookup "powerball").2.2 (by decide) (by decide)

/-- Claim C3, counterexample: a stored row `"100"` is parsed into the
draw `[100]`, and the key 100 of the resulting table lies outside the
lotto649 range [1, 49] — malformed histories do escape the profile
range. -/
theorem C3_counterexample :
    ∃ p ∈ calculate_frequency ["100"],
      ¬ ((get_number_ranges "lotto649").1 ≤ p.1 ∧
          p.1 ≤ (get_number_ranges "lotto649").2) := by
  decide

/-- Claim C3 (amended): the key set of the frequency table is contained in
[min, max] provided every number of every parsed draw lies in
[min, max]. -/
theorem C3_keys_in_range (lottery_type : String) (rows : List String)
    (h : ∀ d ∈ get_all_drawn_numbers rows, ∀ n ∈ d,
      (get_number_ranges lottery_type).1 ≤ n ∧
        n ≤ (get_number_ranges lottery_type).2) :
    ∀ p ∈ calculate_frequency rows,
      (get_number_ranges lottery_type).1 ≤ p.1 ∧
        p.1 ≤ (get_number_ranges lottery_type).2 := by
  intro p hp
  obtain ⟨d, hd, hn⟩ :=
    (key_mem_compute_frequency_iff (get_all_drawn_numbers rows) p.1).mp
      ⟨p, hp, rfl⟩
  exact h d hd p.1 hn

/-- Witness for the amended C3 on the well-formed history `["5,7"]`. -/
theorem C3_witness :
    (get_number_ranges "lotto649").1 ≤ ((5 : Int), (1 : Nat)).1 ∧
      ((5 : Int), (1 : Nat)).1 ≤ (get_number_ranges "lotto649").2 :=
  C3_keys_in_range "lotto649" ["5,7"] (by decide) (5, 1) (by decide)

/-- Claim C4: `generate_optimal_entries` returns exactly `n` entries,
numbered from 1, whose strategy labels follow the fixed rotation
`[hot, balanced, cold, random, hot]` via `i mod 5`; for `n = 5` the labels
are exactly that rotation. -/
theorem C4_batch_spec (rows : List String) (lottery_type : String)
    (num_entries : Nat) (rng : Nat → Nat → Nat) :
    (generate_optimal_entries rows lottery_type num_entries rng).length =
      num_entries ∧
    (generate_optimal_entries rows lottery_type num_entries rng).map
        GeneratedEntry.strategy =
      (List.range num_entries).map
        (fun i => ["hot", "balanced", "cold", "random", "hot"].getD (i % 5)
          "") ∧
    (generate_optimal_entries rows lottery_type num_entries rng).map
        GeneratedEntry.entry_number =
      (List.range num_entries).map (fun i => i + 1) ∧
    (generate_optimal_entries rows lottery_type 5 rng).map
        GeneratedEntry.strategy =
      ["hot", "balanced", "cold", "random", "hot"] := by
  refine ⟨?_, ?_, ?_, ?_⟩
  · unfold generate_optimal_entries
    rw [List.length_map, List.length_range]
  · unfold generate_optimal_entries
    rw [List.map_map]
    rfl
  · unfold generate_optimal_entries
    rw [List.map_map]
    rfl
  · unfold generate_optimal_entries
    rw [List.map_map]
    rfl

/-- Claim C5: on an empty frequency table every strategy string — known or
unknown — produces the pure-random fallback: the sorted random sample of
`numbers_needed` values from [min, max], which is a valid entry and
coincides with what the `random` strategy returns. -/
theorem C5_empty_table_random (lottery_type strategy : String)
    (rng : Nat → Nat) (t : Nat) :
    generate_entry lottery_type strategy [] rng t =
      List.insertionSort (· ≤ ·)
        (randSample rng t
          (rangeList (get_number_ranges lottery_type).1
            (get_number_ranges lottery_type).2)
          (numbers_needed lottery_type)) ∧
    generate_entry lottery_type strategy [] rng t =
      generate_entry lottery_type "random" [] rng t ∧
    valid_entry lottery_type
      (generate_entry lottery_type strategy [] rng t) := by
  have h1 := generate_entry_of_empty lottery_type strategy rng t
  have h2 := generate_entry_of_empty lottery_type "random" rng t
  refine ⟨h1, by rw [h1, h2], ?_⟩
  rw [h1]
  exact randSample_entry_valid lottery_type rng t

/-- Claim C6: every strategy string outside {hot, cold, balanced, random}
makes `generate_entry` return exactly the `balanced` result. -/
theorem C6_unknown_strategy_balanced (lottery_type strategy : String)
    (freq : List (Int × Nat)) (rng : Nat → Nat) (t : Nat)
    (h1 : strategy ≠ "hot") (h2 : strategy ≠ "cold")
    (h3 : strategy ≠ "balanced") (h4 : strategy ≠ "random") :
    generate_entry lottery_type strategy freq rng t =
      generate_entry lottery_type "balanced" freq rng t :=
  generate_entry_of_unknown lottery_type strategy freq rng t h1 h2 h3 h4

/-- Witness for C6 at the unknown strategy string `"wild"`. -/
theorem C6_witness :
    generate_entry "lotto649" "wild" [(1, 1)] (fun _ => 0) 0 =
      generate_entry "lotto649" "balanced" [(1, 1)] (fun _ => 0) 0 :=
  C6_unknown_strategy_balanced "lotto649" "wild" [(1, 1)] (fun _ => 0) 0
    (by decide) (by decide) (by decide) (by decide)

/-- Claim C7: the counts of `compute_frequency` sum to the total number of
occurrences across the draws (a number repeated inside one draw counts
each time: the count of every `n` is its occurrence count in the
concatenated history), and recomputation on the same history is
identical. -/
theorem C7_frequency_totals (draws : List (List Int)) :
    sumVals (compute_frequency draws) = (draws.map List.length).sum ∧
    (∀ n : Int,
      countVal (compute_frequency draws) n = draws.flatten.count n) ∧
    compute_frequency draws = compute_frequency draws :=
  ⟨sumVals_compute_frequency draws, countVal_compute_frequency draws, rfl⟩

/-- Claim C8: both rankings have length `min k |table|`, are sorted by
count (descending resp. ascending), return `[]` on the empty table, are
permutations of the table when untruncated, and break ties by the table's
original iteration order (each tie class filters out unchanged). -/
theorem C8_rank_spec (freq : List (Int × Nat)) (k : Nat) :
    (rank_most_frequent freq k).length = min k freq.length ∧
    List.Sorted descByCount (rank_most_frequent freq k) ∧
    (rank_least_frequent freq k).length = min k freq.length ∧
    List.Sorted ascByCount (rank_least_frequent freq k) ∧
    rank_most_frequent [] k = [] ∧
    rank_least_frequent [] k = [] ∧
    (rank_most_frequent freq freq.length).Perm freq ∧
    (rank_least_frequent freq freq.length).Perm freq ∧
    (∀ c : Nat, (rank_most_frequent freq freq.length).filter
        (fun p => p.2 == c) = freq.filter (fun p => p.2 == c)) ∧
    (∀ c : Nat, (rank_least_frequent freq freq.length).filter
        (fun p => p.2 == c) = freq.filter (fun p => p.2 == c)) := by
  have htakeM : rank_most_frequent freq freq.length =
      List.insertionSort descByCount freq := by
    unfold rank_most_frequent
    rw [← List.length_insertionSort descByCount freq, List.take_length]
  have htakeL : rank_least_frequent freq freq.length =
      List.insertionSort ascByCount freq := by
    unfold rank_least_frequent
    rw [← List.length_insertionSort ascByCount freq, List.take_length]
  refine ⟨?_, ?_, ?_, ?_, by simp [rank_most_frequent],
    by simp [rank_least_frequent], ?_, ?_, ?_, ?_⟩
  · unfold rank_most_frequent
    rw [List.length_take, List.length_insertionSort]
  · exact List.Pairwise.sublist (List.take_sublist _ _)
      (List.sorted_insertionSort descByCount freq)
  · unfold rank_least_frequent
    rw [List.length_take, List.length_insertionSort]
  · exact List.Pairwise.sublist (List.take_sublist _ _)
      (List.sorted_insertionSort ascByCount freq)
  · rw [htakeM]
    exact List.perm_insertionSort descByCount freq
  · rw [htakeL]
    exact List.perm_insertionSort ascByCount freq
  · intro c
    rw [htakeM]
    refine filter_insertionSort descByCount _ ?_ freq
    intro a b ha hb
    have ha2 : a.2 = c := by simpa using ha
    have hb2 : b.2 = c := by simpa using hb
    unfold descByCount
    omega
  · intro c
    rw [htakeL]
    refine filter_insertionSort ascByCount _ ?_ freq
    intro a b ha hb
    have ha2 : a.2 = c := by simpa using ha
    have hb2 : b.2 = c := by simpa using hb
    unfold ascByCount
    omega

/-- Claim C9: on a non-empty table the `hot` strategy is the first
`numbers_needed − 1` keys of the `2 × numbers_needed` most-frequent
ranking plus one random pick from the complement of those keys within
[min, max] — a pick that is never an already-selected key and always lies
in the range, whatever its frequency. -/
theorem C9_hot_structure (lottery_type : String) (freq : List (Int × Nat))
    (rng : Nat → Nat) (t : Nat) (hne : freq ≠ []) :
    generate_entry lottery_type "hot" freq rng t =
      List.insertionSort (· ≤ ·)
        (hot_first_part lottery_type freq ++
          [randChoice rng t (hot_pool lottery_type freq)]) ∧
    randChoice rng t (hot_pool lottery_type freq) ∉
      hot_first_part lottery_type freq ∧
    (get_number_ranges lottery_type).1 ≤
      randChoice rng t (hot_pool lottery_type freq) ∧
    randChoice rng t (hot_pool lottery_type freq) ≤
      (get_number_ranges lottery_type).2 := by
  have hcmem := randChoice_mem rng t (hot_pool_ne lottery_type freq)
  have hcrange := mem_rangeList.mp (List.mem_filter.mp hcmem).1
  have hcnot : randChoice rng t (hot_pool lottery_type freq) ∉
      hot_first_part lottery_type freq := by
    have h2 := (List.mem_filter.mp hcmem).2
    intro hmemc
    rw [contains_eq_true_iff.mpr hmemc] at h2
    simp at h2
  exact ⟨generate_entry_of_hot lottery_type freq rng t hne, hcnot,
    hcrange.1, hcrange.2⟩

/-- Witness for C9 at the one-key table {5 ↦ 1}. -/
theorem C9_witness :
    generate_entry "lotto649" "hot" [(5, 1)] (fun _ => 0) 0 =
      List.insertionSort (· ≤ ·)
        (hot_first_part "lotto649" [(5, 1)] ++
          [randChoice (fun _ => 0) 0 (hot_pool "lotto649" [(5, 1)])]) ∧
    randChoice (fun _ => 0) 0 (hot_pool "lotto649" [(5, 1)]) ∉
      hot_first_part "lotto649" [(5, 1)] ∧
    (get_number_ranges "lotto649").1 ≤
      randChoice (fun _ => 0) 0 (hot_pool "lotto649" [(5, 1)]) ∧
    randChoice (fun _ => 0) 0 (hot_pool "lotto649" [(5, 1)]) ≤
      (get_number_ranges "lotto649").2 :=
  C9_hot_structure "lotto649" [(5, 1)] (fun _ => 0) 0 (by decide)

/-- Claim C10: every value of the table built by `calculate_frequency` is
strictly positive, every key is a non-negative integer (only digit tokens
are parsed), and a number is a key exactly when it occurs in some parsed
draw. -/
theorem C10_table_invariants (rows : List String) :
    (∀ p ∈ calculate_frequency rows, 0 < p.2 ∧ 0 ≤ p.1) ∧
    ∀ n : Int, (∃ p ∈ calculate_frequency rows, p.1 = n) ↔
      ∃ d ∈ get_all_drawn_numbers rows, n ∈ d := by
  constructor
  · intro p hp
    refine ⟨pos_compute_frequency _ p hp, ?_⟩
    obtain ⟨d, hd, hn⟩ :=
      (key_mem_compute_frequency_iff (get_all_drawn_numbers rows) p.1).mp
        ⟨p, hp, rfl⟩
    unfold get_all_drawn_numbers at hd
    obtain ⟨s, _, rfl⟩ := List.mem_map.mp hd
    unfold parse_numbers at hn
    obtain ⟨tok, _, heq⟩ := List.mem_map.mp hn
    rw [← heq]
    exact Int.natCast_nonneg _
  · intro n
    exact key_mem_compute_frequency_iff (get_all_drawn_numbers rows) n

/-- Witness for C10: 7 is a key of the table of `["3,3,x,7"]` because it
occurs in the parsed draw `[3, 3, 7]`. -/
theorem C10_witness :
    ∃ p ∈ calculate_frequency ["3,3,x,7"], p.1 = 7 :=
  ((C10_table_invariants ["3,3,x,7"]).2 7).mpr
    ⟨[3, 3, 7], by decide, by decide⟩

end LottoScraper
